import Mathlib

/-!
Shallow embedding of the resource-path compiler of `src/cdk_stacks/apigw_stack.py`
(the `ApiGwStack` class).  The CDK REST-API resource tree is modelled as an
in-memory tree of nodes; `api.root.get_resource` / `add_resource` /
`add_method` become association-list operations on that tree.  Python string
helpers (`str.split`, `str.upper`, `str.replace` on a single character) are
embedded as `pySplit`, `pyUpper`, `pyReplaceChar`.  Exceptions raised by the
Python code (KeyError, ValueError, and the construct-id collision the CDK
raises when two constructs share an id under one scope) become the `Err`
type; stateful methods return the tree together with an optional error, the
error meaning the Python call raised at that point with the returned tree
showing the mutations made before the raise.
-/

/-- Python `s.split(sep)` for a one-character separator: accumulate the
current piece and cut at each separator occurrence. -/
def splitAux (sep : Char) : List Char → List Char → List String
  | [], acc => [String.mk acc.reverse]
  | c :: cs, acc =>
    if c = sep then String.mk acc.reverse :: splitAux sep cs []
    else splitAux sep cs (c :: acc)

/-- Python `s.split(sep)` (single-character separator); note `"".split(sep)`
is `[""]`, one empty piece, never the empty list. -/
def pySplit (s : String) (sep : Char) : List String := splitAux sep s.data []

/-- Python `s.upper()` restricted to the ASCII paths used in configurations. -/
def pyUpper (s : String) : String := String.mk (s.data.map Char.toUpper)

/-- Python `s.replace(a, b)` for one-character `a`, `b`. -/
def pyReplaceChar (s : String) (a b : Char) : String :=
  String.mk (s.data.map fun c => if c = a then b else c)

/-- The integration object built in `add_methods`: either a Lambda
integration (`apigw.LambdaIntegration` over `Function.from_function_arn`,
keyed by the construct id passed in) or an HTTP proxy integration
(`apigw.HttpIntegration`), or the Mock integration used by the CORS
preflight method. -/
inductive Integration where
  | lambdaFn (stackId : String) (functionArn : Option String)
  | httpProxy (url : Option String) (httpMethod : String)
  | mock
deriving Repr, DecidableEq

/-- The claim-relevant data of one `add_method` call: the
`api_key_required` flag, the integration, and the declared
`request_parameters`. -/
structure MethodDef where
  apiKeyRequired : Bool
  integration : Integration
  requestParameters : List (String × Bool)
deriving Repr, DecidableEq

/-- One node of the REST-API resource tree: children keyed by path part
(`get_resource` / `add_resource`), plus the methods bound on the node keyed
by HTTP verb (`add_method`; the verb is the construct id in the CDK). -/
inductive RNode where
  | node (children : List (String × RNode)) (methods : List (String × MethodDef))
deriving Repr

/-- The exceptions the Python code can raise while building the tree. -/
inductive Err where
  | keyErr (key : String)
  | valueErr (msg : String)
  | collision (constructId : String)
  | missing
deriving Repr, DecidableEq

def RNode.children : RNode → List (String × RNode)
  | .node cs _ => cs

def RNode.methods : RNode → List (String × MethodDef)
  | .node _ ms => ms

/-- First-match association-list lookup (dict-style lookup by key). -/
def assocGet {α : Type} : List (String × α) → String → Option α
  | [], _ => none
  | (k, v) :: rest, s => if k = s then some v else assocGet rest s

/-- Replace the binding of `s` if present, else append a new binding. -/
def assocSet {α : Type} : List (String × α) → String → α → List (String × α)
  | [], s, c => [(s, c)]
  | (k, v) :: rest, s, c => if k = s then (s, c) :: rest else (k, v) :: assocSet rest s c

def RNode.getChild (n : RNode) (s : String) : Option RNode :=
  assocGet n.children s

def RNode.setChild (n : RNode) (s : String) (c : RNode) : RNode :=
  .node (assocSet n.children s c) n.methods

/-- A fresh resource node, as created by `add_resource`. -/
def emptyNode : RNode := .node [] []

/-- Walk the tree along a segment list without creating anything. -/
def follow : RNode → List String → Option RNode
  | n, [] => some n
  | n, s :: rest =>
    match n.getChild s with
    | some c => follow c rest
    | none => none

/-- The value of the segment-resolution loop shared by
`create_api_resource` and `create_proxy_api_resource` when every
`add_resource` call succeeds: for each path part, descend into the existing
child when `get_resource` finds one, else create a fresh child and descend.
The loop itself is `resolveSegsE`; on success its tree is exactly this
function (`resolveSegsE_ok`), which the properties below are stated
against.  The resolved node sits at the segment list. -/
def resolveSegs : RNode → List String → RNode
  | n, [] => n
  | n, s :: rest =>
    match n.getChild s with
    | some c => n.setChild s (resolveSegs c rest)
    | none => n.setChild s (resolveSegs emptyNode rest)

/-- The segment-resolution loop as the code runs it: `get_resource` is a
plain lookup and never raises (the try/except around it in
`create_api_resource` is inert), while `add_resource` with an empty path
part raises in the constructs library before creating anything, because the
empty string is not a legal construct id.  Returns the tree as mutated up
to the point of the raise, together with the raised error if any. -/
def resolveSegsE : RNode → List String → RNode × Option Err
  | n, [] => (n, none)
  | n, s :: rest =>
    match n.getChild s with
    | some c =>
      match resolveSegsE c rest with
      | (c2, oe) => (n.setChild s c2, oe)
    | none =>
      if s = "" then (n, some (.valueErr "Only root constructs may have an empty name"))
      else
        match resolveSegsE emptyNode rest with
        | (c2, oe) => (n.setChild s c2, oe)

/-- How many of the looked-up segments are missing from the tree (each
missing segment costs one fresh node, and once one is missing all deeper
ones are too). -/
def missingCount : RNode → List String → Nat
  | _, [] => 0
  | n, s :: rest =>
    match n.getChild s with
    | some c => missingCount c rest
    | none => 1 + rest.length

mutual
def RNode.count : RNode → Nat
  | .node cs _ => 1 + countChildren cs
def countChildren : List (String × RNode) → Nat
  | [] => 0
  | (_, c) :: rest => RNode.count c + countChildren rest
end

/-- `add_method` on one node: the CDK uses the HTTP verb as the construct id
of the Method, so a second method with the same verb on the same resource
raises a construct-id collision before any mutation. -/
def RNode.addMethod (n : RNode) (verb : String) (d : MethodDef) : Except Err RNode :=
  match assocGet n.methods verb with
  | some _ => .error (.collision verb)
  | none => .ok (.node n.children (n.methods ++ [(verb, d)]))

/-- `add_resource` on one node: the constructs library rejects an empty
construct id before anything is created, and the path part is the construct
id, so an existing child with the same part raises a collision. -/
def RNode.addResource (n : RNode) (seg : String) : Except Err RNode :=
  if seg = "" then .error (.valueErr "Only root constructs may have an empty name")
  else
    match assocGet n.children seg with
    | some _ => .error (.collision seg)
    | none => .ok (.node (n.children ++ [(seg, emptyNode)]) n.methods)

/-- Apply a fallible node update at the end of a path that already exists in
the tree (all callers resolve the path first). -/
def modifyAt (f : RNode → Except Err RNode) : RNode → List String → Except Err RNode
  | n, [] => f n
  | n, s :: rest =>
    match n.getChild s with
    | some c =>
      match modifyAt f c rest with
      | .error e => .error e
      | .ok c2 => .ok (n.setChild s c2)
    | none => .error .missing

def addMethodAt (t : RNode) (p : List String) (verb : String) (d : MethodDef) :
    Except Err RNode :=
  modifyAt (fun n => n.addMethod verb d) t p

def addResourceAt (t : RNode) (p : List String) (seg : String) : Except Err RNode :=
  modifyAt (fun n => n.addResource seg) t p

/-- The method bound at path `p` under verb `verb`, when present. -/
def getMethod (t : RNode) (p : List String) (verb : String) : Option MethodDef :=
  match follow t p with
  | some n => assocGet n.methods verb
  | none => none

/-- How many bindings of key `k` an association list holds. -/
def countKey {α : Type} (l : List (String × α)) (k : String) : Nat :=
  (l.filter (fun pr => pr.1 == k)).length

/-- The integration chosen inside `add_methods` from its
`integration_type` / `integration_value` arguments.  The lambda case wraps
`Function.from_function_arn(self, id, ...)` and records the construct id it
is registered under; that Function construct lives in the stack scope, not
in the resource tree, so its own duplicate-id collision (raised when two
direct-invoke entries share a path, before the primary `add_method` runs)
is outside this tree model and no property below instantiates the lambda
branch at a previously used id. -/
def selectIntegration (stackId : String) (integrationType : String)
    (integrationValue : Option String) (method : String) : Integration :=
  if integrationType = "http_proxy" then .httpProxy integrationValue method
  else .lambdaFn stackId integrationValue

/-- The primary method definition `add_methods` passes to `add_method`:
the integration, the `api_key_required` flag it was given, and the required
request parameter `method.request.path.proxy`. -/
def primaryDef (flag : Bool) (integ : Integration) : MethodDef :=
  { apiKeyRequired := flag, integration := integ,
    requestParameters := [("method.request.path.proxy", true)] }

/-- The OPTIONS method `add_methods` adds for CORS: Mock integration, no
`api_key_required` argument (so the CDK default, false), no request
parameters. -/
def preflightDef : MethodDef :=
  { apiKeyRequired := false, integration := .mock, requestParameters := [] }

/-- `ApiGwStack.add_methods`: add the primary method at the node, then
unconditionally add the OPTIONS preflight method at the same node.  An
exception leaves the mutations already made in place and propagates. -/
def add_methods (t : RNode) (p : List String) (stackId method integrationType : String)
    (integrationValue : Option String) (apiKeyRequired : Bool) : RNode × Option Err :=
  match addMethodAt t p method (primaryDef apiKeyRequired
      (selectIntegration stackId integrationType integrationValue method)) with
  | .error e => (t, some e)
  | .ok t1 =>
    match addMethodAt t1 p "OPTIONS" preflightDef with
    | .error e => (t1, some e)
    | .ok t2 => (t2, none)

/-- The construct id `create_api_resource` computes for the Lambda import:
`"LAMBDA_" + resource_name.upper().replace("/", "_")`. -/
def lambdaStackId (resource_name : String) : String :=
  "LAMBDA_" ++ pyReplaceChar (pyUpper resource_name) '/' '_'

/-- The construct id `create_proxy_api_resource` computes. -/
def httpProxyStackId (resource_name : String) : String :=
  "HTTP_PROXY_" ++ pyReplaceChar (pyUpper resource_name) '/' '_'

/-- `ApiGwStack.create_api_resource`: split the path, resolve every part
(creating missing nodes, reusing existing ones; an empty part makes
`add_resource` raise), then bind the method. -/
def create_api_resource (t : RNode) (resource_name method integration_type : String)
    (integration_value : Option String) (api_key_required : Bool) : RNode × Option Err :=
  match resolveSegsE t (pySplit resource_name '/') with
  | (t1, some e) => (t1, some e)
  | (t1, none) =>
    add_methods t1 (pySplit resource_name '/') (lambdaStackId resource_name) method
      integration_type integration_value api_key_required

/-- `ApiGwStack.create_proxy_api_resource`: resolve the path; when its last
part is already the wildcard marker bind at the resolved node, else
`add_resource` one wildcard child (collision if one already exists) and bind
there. -/
def create_proxy_api_resource (t : RNode) (resource_name method : String)
    (http_proxy_url : String) (api_key_required : Bool) : RNode × Option Err :=
  match resolveSegsE t (pySplit resource_name '/') with
  | (t1, some e) => (t1, some e)
  | (t1, none) =>
    if (pySplit resource_name '/').getLast? = some "{proxy+}" then
      add_methods t1 (pySplit resource_name '/') (httpProxyStackId resource_name)
        method "http_proxy" (some http_proxy_url) api_key_required
    else
      match addResourceAt t1 (pySplit resource_name '/') "{proxy+}" with
      | .error e => (t1, some e)
      | .ok t2 =>
        add_methods t2 (pySplit resource_name '/' ++ ["{proxy+}"])
          (httpProxyStackId resource_name ++ "_CHILD") method "http_proxy"
          (some http_proxy_url) api_key_required

/-- One entry of `resources_methods`: the 2-element list shorthand or the
dictionary form with optional `integration_type`, `http_proxy_url`,
`lambda_function_arn` keys. -/
inductive ResourceMethod where
  | listForm (path method : String)
  | dictForm (path method : String) (integration_type : Option String)
      (http_proxy_url : Option String) (lambda_function_arn : Option String)
deriving Repr, DecidableEq

/-- One iteration of the `resources_methods` loop in `ApiGwStack.__init__`.
In the dictionary form, `integration_type` defaults to `"lambda"`; the
`http_proxy` case reads `resource_method["http_proxy_url"]`, which raises a
KeyError before any tree call when the key is absent; every non-proxy case
calls `create_api_resource` with the literal `"lambda"` integration type. -/
def processEntry (projectArn : Option String) (flag : Bool) (t : RNode) :
    ResourceMethod → RNode × Option Err
  | .listForm path method => create_api_resource t path method "lambda" projectArn flag
  | .dictForm path method itype url arn =>
    let integrationType := itype.getD "lambda"
    if integrationType = "http_proxy" then
      match url with
      | none => (t, some (.keyErr "http_proxy_url"))
      | some u => create_proxy_api_resource t path method u flag
    else
      let lam := match arn with | some a => some a | none => projectArn
      create_api_resource t path method "lambda" lam flag

/-- The `resources_methods` loop: an exception aborts the run at the first
failing entry. -/
def processEntries (projectArn : Option String) (flag : Bool) :
    RNode → List ResourceMethod → RNode × Option Err
  | t, [] => (t, none)
  | t, e :: rest =>
    match processEntry projectArn flag t e with
    | (t1, some err) => (t1, some err)
    | (t1, none) => processEntries projectArn flag t1 rest

/-- The `usage_plan` block read when API keys are enabled. -/
structure UsagePlanConfig where
  usage_plan_name : String
  usage_plan_description : String
  plan_rate_limit : Nat
  plan_burst_limit : Nat
  quota_limit : Nat
  quota_period : String
deriving Repr, DecidableEq

/-- The `api_key_config` block of the project configuration. -/
structure ApiKeyConfig where
  enable_api_key : Bool
  api_key_id : Option String
  api_key_name : Option String
  api_key_value : Option String
  usage_plan : Option UsagePlanConfig
deriving Repr, DecidableEq

/-- The parts of `project_config` the resource-tree construction reads. -/
structure ApiGwConfig where
  resources_methods : List ResourceMethod
  api_key_config : Option ApiKeyConfig
  lambda_function_arn : Option String
deriving Repr, DecidableEq

/-- Python truthiness of an optional string (`None` and `""` are falsy). -/
def truthy : Option String → Bool
  | none => false
  | some s => s != ""

/-- The API-key phase of `ApiGwStack.__init__`, run before the entry loop:
with keys enabled it reads the required usage-plan keys (KeyError when the
block is absent), then imports the key when an id is truthy, else requires a
truthy name (ValueError otherwise).  Returns the `api_key_required_flag`
passed to every subsequent bind. -/
def apiKeyPhase (cfg : ApiGwConfig) : Except Err Bool :=
  match cfg.api_key_config with
  | none => .ok false
  | some k =>
    if k.enable_api_key then
      match k.usage_plan with
      | none => .error (.keyErr "usage_plan_name")
      | some _ =>
        if truthy k.api_key_id then .ok true
        else if truthy k.api_key_name then .ok true
        else .error (.valueErr "api_key_name must be provided if enable_api_key is True and no api_key_id is provided")
    else .ok false

/-- The whole tree-building part of `ApiGwStack.__init__`: run the API-key
phase on the empty root, then process every entry in order. -/
def assemble (cfg : ApiGwConfig) : RNode × Option Err :=
  match apiKeyPhase cfg with
  | .error e => (emptyNode, some e)
  | .ok flag => processEntries cfg.lambda_function_arn flag emptyNode cfg.resources_methods

/-- The methods bound at path `p` (empty when the path does not exist). -/
def methodsAt (t : RNode) (p : List String) : List (String × MethodDef) :=
  match follow t p with
  | some n => n.methods
  | none => []

mutual
def RNode.flagsOk (b : Bool) : RNode → Bool
  | .node cs ms =>
    ms.all (fun pr => pr.2.apiKeyRequired == (if pr.1 = "OPTIONS" then false else b)) &&
      childrenFlagsOk b cs
def childrenFlagsOk (b : Bool) : List (String × RNode) → Bool
  | [] => true
  | (_, c) :: rest => RNode.flagsOk b c && childrenFlagsOk b rest
end

/-- A concrete usage-plan block for evaluation. -/
def demoPlan : UsagePlanConfig :=
  { usage_plan_name := "plan", usage_plan_description := "d", plan_rate_limit := 10,
    plan_burst_limit := 2, quota_limit := 1000, quota_period := "DAY" }

/-- A concrete api-key block that imports an existing key. -/
def demoKeyCfg : ApiKeyConfig :=
  { enable_api_key := true, api_key_id := some "k1", api_key_name := none,
    api_key_value := none, usage_plan := some demoPlan }

/-- A concrete configuration with the access key enabled and one entry. -/
def demoCfg : ApiGwConfig :=
  { resources_methods := [ResourceMethod.listForm "a" "GET"],
    api_key_config := some demoKeyCfg, lambda_function_arn := some "arn:x" }

/-- A concrete configuration enabling the key with no id and no name. -/
def demoBadKeyCfg : ApiKeyConfig :=
  { enable_api_key := true, api_key_id := none, api_key_name := none,
    api_key_value := none, usage_plan := some demoPlan }

/-- The bad-key configuration with one entry that is never reached. -/
def demoBadCfg : ApiGwConfig :=
  { resources_methods := [ResourceMethod.listForm "a" "GET"],
    api_key_config := some demoBadKeyCfg, lambda_function_arn := some "arn:x" }

theorem assocGet_assocSet_self {α : Type} (l : List (String × α)) (s : String) (c : α) :
    assocGet (assocSet l s c) s = some c := by
  induction l with
  | nil => simp [assocSet, assocGet]
  | cons kv rest ih =>
    obtain ⟨k, v⟩ := kv
    by_cases h : k = s
    · simp [assocSet, assocGet, h]
    · simp [assocSet, assocGet, h, ih]

theorem assocSet_assocSet_self {α : Type} (l : List (String × α)) (s : String) (c c' : α) :
    assocSet (assocSet l s c) s c' = assocSet l s c' := by
  induction l with
  | nil => simp [assocSet]
  | cons kv rest ih =>
    obtain ⟨k, v⟩ := kv
    by_cases h : k = s
    · simp [assocSet, h]
    · simp [assocSet, h, ih]

theorem assocGet_append_of_none {α : Type} {l1 : List (String × α)} (l2 : List (String × α))
    (k : String) (h : assocGet l1 k = none) :
    assocGet (l1 ++ l2) k = assocGet l2 k := by
  induction l1 with
  | nil => simp
  | cons kv rest ih =>
    obtain ⟨k1, v⟩ := kv
    by_cases hk : k1 = k
    · simp [assocGet, hk] at h
    · simp [assocGet, hk] at h ⊢
      exact ih h

theorem assocGet_append_of_some {α : Type} {l1 : List (String × α)} (l2 : List (String × α))
    {k : String} {v : α} (h : assocGet l1 k = some v) :
    assocGet (l1 ++ l2) k = some v := by
  induction l1 with
  | nil => simp [assocGet] at h
  | cons kv rest ih =>
    obtain ⟨k1, v1⟩ := kv
    by_cases hk : k1 = k
    · simp [assocGet, hk] at h ⊢
      exact h
    · simp [assocGet, hk] at h ⊢
      exact ih h

theorem assocGet_append_eq_none {α : Type} {l1 l2 : List (String × α)} {k : String} :
    assocGet (l1 ++ l2) k = none ↔ assocGet l1 k = none ∧ assocGet l2 k = none := by
  induction l1 with
  | nil => simp [assocGet]
  | cons kv rest ih =>
    obtain ⟨k1, v1⟩ := kv
    by_cases hk : k1 = k
    · simp [assocGet, hk]
    · simp [assocGet, hk, ih]

theorem countKey_append {α : Type} (l1 l2 : List (String × α)) (k : String) :
    countKey (l1 ++ l2) k = countKey l1 k + countKey l2 k := by
  simp [countKey, List.filter_append]

theorem getChild_setChild_self (n : RNode) (s : String) (c : RNode) :
    (n.setChild s c).getChild s = some c := by
  cases n with
  | node cs ms => simp [RNode.setChild, RNode.getChild, RNode.children, assocGet_assocSet_self]

theorem setChild_setChild_self (n : RNode) (s : String) (c c' : RNode) :
    (n.setChild s c).setChild s c' = n.setChild s c' := by
  cases n with
  | node cs ms => simp [RNode.setChild, RNode.children, RNode.methods, assocSet_assocSet_self]

theorem setChild_methods (n : RNode) (s : String) (c : RNode) :
    (n.setChild s c).methods = n.methods := by
  cases n with
  | node cs ms => simp [RNode.setChild, RNode.methods]

theorem countChildren_append (l1 l2 : List (String × RNode)) :
    countChildren (l1 ++ l2) = countChildren l1 + countChildren l2 := by
  induction l1 with
  | nil => simp [countChildren]
  | cons kv rest ih =>
    obtain ⟨k, v⟩ := kv
    simp [countChildren, ih]
    omega

theorem countChildren_assocSet_some {cs : List (String × RNode)} {s : String} {c : RNode}
    (c' : RNode) (h : assocGet cs s = some c) :
    countChildren (assocSet cs s c') + RNode.count c = countChildren cs + RNode.count c' := by
  induction cs with
  | nil => simp [assocGet] at h
  | cons kv rest ih =>
    obtain ⟨k, v⟩ := kv
    by_cases hk : k = s
    · simp [assocGet, hk] at h
      subst h
      simp [assocSet, hk, countChildren]
      omega
    · simp [assocGet, hk] at h
      have := ih h
      simp [assocSet, hk, countChildren]
      omega

theorem countChildren_assocSet_none {cs : List (String × RNode)} {s : String}
    (c' : RNode) (h : assocGet cs s = none) :
    countChildren (assocSet cs s c') = countChildren cs + RNode.count c' := by
  induction cs with
  | nil => simp [assocSet, countChildren]
  | cons kv rest ih =>
    obtain ⟨k, v⟩ := kv
    by_cases hk : k = s
    · simp [assocGet, hk] at h
    · simp [assocGet, hk] at h
      have := ih h
      simp [assocSet, hk, countChildren]
      omega

theorem count_setChild_some {t c : RNode} {s : String} (c' : RNode)
    (h : t.getChild s = some c) :
    RNode.count (t.setChild s c') + RNode.count c = RNode.count t + RNode.count c' := by
  cases t with
  | node cs ms =>
    have h' : assocGet cs s = some c := h
    have := countChildren_assocSet_some c' h'
    simp [RNode.setChild, RNode.children, RNode.count]
    omega

theorem count_setChild_none {t : RNode} {s : String} (c' : RNode)
    (h : t.getChild s = none) :
    RNode.count (t.setChild s c') = RNode.count t + RNode.count c' := by
  cases t with
  | node cs ms =>
    have h' : assocGet cs s = none := h
    have := countChildren_assocSet_none c' h'
    simp [RNode.setChild, RNode.children, RNode.count]
    omega

theorem missingCount_emptyNode (segs : List String) :
    missingCount emptyNode segs = segs.length := by
  cases segs with
  | nil => rfl
  | cons s rest =>
    simp [missingCount, emptyNode, RNode.getChild, RNode.children, assocGet]
    omega

theorem count_resolveSegs (segs : List String) :
    ∀ t : RNode, RNode.count (resolveSegs t segs) = RNode.count t + missingCount t segs := by
  induction segs with
  | nil => intro t; simp [resolveSegs, missingCount]
  | cons s rest ih =>
    intro t
    cases ht : t.getChild s with
    | some c =>
      have hx := count_setChild_some (resolveSegs c rest) ht
      have hr := ih c
      simp only [resolveSegs, ht, missingCount]
      omega
    | none =>
      have hx := count_setChild_none (resolveSegs emptyNode rest) ht
      have hr := ih emptyNode
      have hm := missingCount_emptyNode rest
      simp only [resolveSegs, ht, missingCount]
      have hce : RNode.count emptyNode = 1 := rfl
      omega

theorem follow_append (p q : List String) :
    ∀ t : RNode, follow t (p ++ q) = (follow t p).bind (fun n => follow n q) := by
  induction p with
  | nil => intro t; simp [follow]
  | cons s rest ih =>
    intro t
    cases ht : t.getChild s with
    | some c => simp [follow, ht, ih]
    | none => simp [follow, ht]

theorem follow_resolveSegs_front (q r : List String) :
    ∀ t : RNode, ∃ n, follow (resolveSegs t (q ++ r)) q = some n := by
  induction q with
  | nil => intro t; exact ⟨resolveSegs t r, rfl⟩
  | cons s rest ih =>
    intro t
    cases ht : t.getChild s with
    | some c =>
      obtain ⟨n, hn⟩ := ih c
      refine ⟨n, ?_⟩
      simp only [List.cons_append, resolveSegs, ht, follow, getChild_setChild_self]
      exact hn
    | none =>
      obtain ⟨n, hn⟩ := ih emptyNode
      refine ⟨n, ?_⟩
      simp only [List.cons_append, resolveSegs, ht, follow, getChild_setChild_self]
      exact hn

theorem resolveSegs_idem (segs : List String) :
    ∀ t : RNode, resolveSegs (resolveSegs t segs) segs = resolveSegs t segs := by
  induction segs with
  | nil => intro t; rfl
  | cons s rest ih =>
    intro t
    cases ht : t.getChild s with
    | some c =>
      simp only [resolveSegs, ht, getChild_setChild_self, ih c, setChild_setChild_self]
    | none =>
      simp only [resolveSegs, ht, getChild_setChild_self, ih emptyNode, setChild_setChild_self]

theorem missingCount_follow_append (q r : List String) :
    ∀ t n : RNode, follow t q = some n → missingCount t (q ++ r) = missingCount n r := by
  induction q with
  | nil =>
    intro t n h
    simp [follow] at h
    subst h
    rfl
  | cons s rest ih =>
    intro t n h
    cases ht : t.getChild s with
    | some c =>
      simp only [follow, ht] at h
      simp only [List.cons_append, missingCount, ht]
      exact ih c n h
    | none =>
      simp only [follow, ht] at h
      exact Option.noConfusion h

theorem modifyAt_ok_elim (f : RNode → Except Err RNode) (p : List String) :
    ∀ t t' : RNode, modifyAt f t p = .ok t' →
    ∃ n n', follow t p = some n ∧ f n = .ok n' ∧ follow t' p = some n' := by
  induction p with
  | nil =>
    intro t t' h
    exact ⟨t, t', rfl, h, rfl⟩
  | cons s rest ih =>
    intro t t' h
    cases ht : t.getChild s with
    | none => simp [modifyAt, ht] at h
    | some c =>
      cases hm : modifyAt f c rest with
      | error e => simp [modifyAt, ht, hm] at h
      | ok c2 =>
        simp only [modifyAt, ht, hm] at h
        cases h
        obtain ⟨n, n', h1, h2, h3⟩ := ih c c2 hm
        refine ⟨n, n', ?_, h2, ?_⟩
        · simp only [follow, ht]; exact h1
        · simp only [follow, getChild_setChild_self]; exact h3

theorem modifyAt_ok_intro (f : RNode → Except Err RNode) (p : List String) :
    ∀ t n n' : RNode, follow t p = some n → f n = .ok n' →
    ∃ t', modifyAt f t p = .ok t' ∧ follow t' p = some n' := by
  induction p with
  | nil =>
    intro t n n' hf hn
    simp only [follow] at hf
    cases hf
    exact ⟨n', by simpa [modifyAt] using hn, rfl⟩
  | cons s rest ih =>
    intro t n n' hf hn
    cases ht : t.getChild s with
    | none => simp only [follow, ht] at hf; exact Option.noConfusion hf
    | some c =>
      simp only [follow, ht] at hf
      obtain ⟨c2, hc1, hc2⟩ := ih c n n' hf hn
      refine ⟨t.setChild s c2, ?_, ?_⟩
      · simp only [modifyAt, ht, hc1]
      · simp only [follow, getChild_setChild_self]; exact hc2

theorem modifyAt_error_intro (f : RNode → Except Err RNode) (p : List String) :
    ∀ t n : RNode, ∀ e : Err, follow t p = some n → f n = .error e →
    modifyAt f t p = .error e := by
  induction p with
  | nil =>
    intro t n e hf hn
    simp only [follow] at hf
    cases hf
    simpa [modifyAt] using hn
  | cons s rest ih =>
    intro t n e hf hn
    cases ht : t.getChild s with
    | none => simp only [follow, ht] at hf; exact Option.noConfusion hf
    | some c =>
      simp only [follow, ht] at hf
      simp only [modifyAt, ht, ih c n e hf hn]

theorem modifyAt_count (f : RNode → Except Err RNode) (k : Nat)
    (hf : ∀ n n', f n = .ok n' → RNode.count n' = RNode.count n + k) (p : List String) :
    ∀ t t' : RNode, modifyAt f t p = .ok t' → RNode.count t' = RNode.count t + k := by
  induction p with
  | nil =>
    intro t t' h
    exact hf t t' h
  | cons s rest ih =>
    intro t t' h
    cases ht : t.getChild s with
    | none => simp [modifyAt, ht] at h
    | some c =>
      cases hm : modifyAt f c rest with
      | error e => simp [modifyAt, ht, hm] at h
      | ok c2 =>
        simp only [modifyAt, ht, hm] at h
        cases h
        have h1 := ih c c2 hm
        have h2 := count_setChild_some c2 ht
        omega

theorem modifyAt_methods_frame (f : RNode → Except Err RNode) (x : String)
    (q : List String) (p : List String) :
    ∀ t t' : RNode, modifyAt f t (p ++ x :: q) = .ok t' →
    (follow t' p).map RNode.methods = (follow t p).map RNode.methods := by
  induction p with
  | nil =>
    intro t t' h
    simp only [List.nil_append] at h
    cases ht : t.getChild x with
    | none => simp [modifyAt, ht] at h
    | some c =>
      cases hm : modifyAt f c q with
      | error e => simp [modifyAt, ht, hm] at h
      | ok c2 =>
        simp only [modifyAt, ht, hm] at h
        cases h
        simp [follow, setChild_methods]
  | cons s rest ih =>
    intro t t' h
    simp only [List.cons_append] at h
    cases ht : t.getChild s with
    | none => simp [modifyAt, ht] at h
    | some c =>
      cases hm : modifyAt f c (rest ++ x :: q) with
      | error e => simp [modifyAt, ht, hm] at h
      | ok c2 =>
        simp only [modifyAt, ht, hm] at h
        cases h
        simp only [follow, ht, getChild_setChild_self]
        exact ih c c2 hm

theorem addMethod_ok_count (n n' : RNode) (verb : String) (d : MethodDef)
    (h : n.addMethod verb d = .ok n') : RNode.count n' = RNode.count n + 0 := by
  cases n with
  | node cs ms =>
    simp only [RNode.addMethod, RNode.methods, RNode.children] at h
    cases hg : assocGet ms verb with
    | some v => rw [hg] at h; exact Except.noConfusion h
    | none =>
      rw [hg] at h
      cases h
      simp [RNode.count]

theorem addResource_ok_count (n n' : RNode) (seg : String)
    (h : n.addResource seg = .ok n') : RNode.count n' = RNode.count n + 1 := by
  cases n with
  | node cs ms =>
    by_cases hs : seg = ""
    · simp [RNode.addResource, hs] at h
    · simp only [RNode.addResource, RNode.methods, RNode.children, if_neg hs] at h
      cases hg : assocGet cs seg with
      | some v => rw [hg] at h; exact Except.noConfusion h
      | none =>
        rw [hg] at h
        cases h
        have h1 : RNode.count emptyNode = 1 := rfl
        have h2 := countChildren_append cs [(seg, emptyNode)]
        have h3 : countChildren [(seg, emptyNode)] =
            RNode.count emptyNode + countChildren [] := by
          simp [countChildren]
        have h4 : countChildren ([] : List (String × RNode)) = 0 := rfl
        have h5 : RNode.count (RNode.node (cs ++ [(seg, emptyNode)]) ms) =
            1 + countChildren (cs ++ [(seg, emptyNode)]) := by
          simp [RNode.count]
        have h6 : RNode.count (RNode.node cs ms) = 1 + countChildren cs := by
          simp [RNode.count]
        omega

theorem addMethod_ok_elim (n n' : RNode) (verb : String) (d : MethodDef)
    (h : n.addMethod verb d = .ok n') :
    assocGet n.methods verb = none ∧ n' = RNode.node n.children (n.methods ++ [(verb, d)]) := by
  cases hg : assocGet n.methods verb with
  | some v => simp [RNode.addMethod, hg] at h
  | none =>
    simp only [RNode.addMethod, hg] at h
    cases h
    exact ⟨rfl, rfl⟩

theorem addResource_ok_elim (n n' : RNode) (seg : String)
    (h : n.addResource seg = .ok n') :
    assocGet n.children seg = none ∧
      n' = RNode.node (n.children ++ [(seg, emptyNode)]) n.methods := by
  by_cases hs : seg = ""
  · simp [RNode.addResource, hs] at h
  · cases hg : assocGet n.children seg with
    | some v => simp [RNode.addResource, hs, hg] at h
    | none =>
      simp only [RNode.addResource, if_neg hs, hg] at h
      cases h
      exact ⟨rfl, rfl⟩

theorem add_methods_ok_split {t t' : RNode} {p : List String}
    {stackId method it : String} {iv : Option String} {flag : Bool}
    (h : add_methods t p stackId method it iv flag = (t', none)) :
    ∃ t1, addMethodAt t p method
        (primaryDef flag (selectIntegration stackId it iv method)) = .ok t1 ∧
      addMethodAt t1 p "OPTIONS" preflightDef = .ok t' := by
  unfold add_methods at h
  cases h1 : addMethodAt t p method
      (primaryDef flag (selectIntegration stackId it iv method)) with
  | error e => rw [h1] at h; dsimp only at h; simp at h
  | ok t1 =>
    rw [h1] at h
    dsimp only at h
    cases h2 : addMethodAt t1 p "OPTIONS" preflightDef with
    | error e => rw [h2] at h; dsimp only at h; simp at h
    | ok t2 =>
      rw [h2] at h
      dsimp only at h
      simp only [Prod.mk.injEq] at h
      exact ⟨t1, rfl, by rw [h2, h.1]⟩

theorem add_methods_ok_elim {t t' : RNode} {p : List String}
    {stackId method it : String} {iv : Option String} {flag : Bool}
    (h : add_methods t p stackId method it iv flag = (t', none)) :
    ∃ n, follow t p = some n ∧ assocGet n.methods method = none ∧
      method ≠ "OPTIONS" ∧ assocGet n.methods "OPTIONS" = none ∧
      follow t' p = some (RNode.node n.children
        (n.methods ++ [(method, primaryDef flag (selectIntegration stackId it iv method)),
                       ("OPTIONS", preflightDef)])) ∧
      RNode.count t' = RNode.count t := by
  obtain ⟨t1, h1, h2⟩ := add_methods_ok_split h
  obtain ⟨n, n1, hf, hfn, hf1⟩ := modifyAt_ok_elim _ p t t1 h1
  obtain ⟨hget, hn1⟩ := addMethod_ok_elim n n1 method _ hfn
  obtain ⟨m, m1, hg, hgm, hg1⟩ := modifyAt_ok_elim _ p t1 t' h2
  rw [hf1] at hg
  cases hg
  obtain ⟨hget2, hm1⟩ := addMethod_ok_elim n1 m1 "OPTIONS" preflightDef hgm
  have hn1m : n1.methods = n.methods ++
      [(method, primaryDef flag (selectIntegration stackId it iv method))] := by
    rw [hn1]; rfl
  have hn1c : n1.children = n.children := by
    rw [hn1]; rfl
  rw [hn1m] at hget2
  rw [assocGet_append_eq_none] at hget2
  obtain ⟨ho1, ho2⟩ := hget2
  have hmo : method ≠ "OPTIONS" := by
    intro hcontra
    simp [assocGet, hcontra] at ho2
  have hcount1 : RNode.count t1 = RNode.count t + 0 :=
    modifyAt_count _ 0 (fun a b hab => addMethod_ok_count a b _ _ hab) p t t1 h1
  have hcount2 : RNode.count t' = RNode.count t1 + 0 :=
    modifyAt_count _ 0 (fun a b hab => addMethod_ok_count a b _ _ hab) p t1 t' h2
  refine ⟨n, hf, hget, hmo, ho1, ?_, by omega⟩
  rw [hg1, hm1, hn1m, hn1c]
  simp

theorem add_methods_ok_getMethod {t t' : RNode} {p : List String}
    {stackId method it : String} {iv : Option String} {flag : Bool}
    (h : add_methods t p stackId method it iv flag = (t', none)) :
    getMethod t' p method =
      some (primaryDef flag (selectIntegration stackId it iv method)) := by
  obtain ⟨n, hf, hget, hmo, ho, hf', hc⟩ := add_methods_ok_elim h
  cases n with
  | node cs ms =>
    simp only [RNode.methods, RNode.children] at hget ho hf'
    unfold getMethod
    rw [hf']
    dsimp only
    simp only [RNode.methods]
    rw [assocGet_append_of_none _ _ hget]
    simp [assocGet]

theorem add_methods_ok_getOptions {t t' : RNode} {p : List String}
    {stackId method it : String} {iv : Option String} {flag : Bool}
    (h : add_methods t p stackId method it iv flag = (t', none)) :
    getMethod t' p "OPTIONS" = some preflightDef := by
  obtain ⟨n, hf, hget, hmo, ho, hf', hc⟩ := add_methods_ok_elim h
  cases n with
  | node cs ms =>
    simp only [RNode.methods, RNode.children] at hget ho hf'
    unfold getMethod
    rw [hf']
    dsimp only
    simp only [RNode.methods]
    rw [assocGet_append_of_none _ _ ho]
    simp [assocGet, hmo]

theorem add_methods_ok_methods_frame {t t' : RNode} (pp : List String) (x : String)
    (q : List String) {stackId method it : String} {iv : Option String} {flag : Bool}
    (h : add_methods t (pp ++ x :: q) stackId method it iv flag = (t', none)) :
    (follow t' pp).map RNode.methods = (follow t pp).map RNode.methods := by
  obtain ⟨t1, h1, h2⟩ := add_methods_ok_split h
  have f1 := modifyAt_methods_frame _ x q pp t t1 h1
  have f2 := modifyAt_methods_frame _ x q pp t1 t' h2
  rw [f2, f1]

theorem addResourceAt_ok_count {t t' : RNode} {p : List String} {seg : String}
    (h : addResourceAt t p seg = .ok t') : RNode.count t' = RNode.count t + 1 :=
  modifyAt_count _ 1 (fun a b hab => addResource_ok_count a b _ hab) p t t' h

theorem addResourceAt_ok_follow {t t' : RNode} {p : List String} {seg : String}
    (h : addResourceAt t p seg = .ok t') :
    follow t' (p ++ [seg]) = some emptyNode ∧
      (follow t' p).map RNode.methods = (follow t p).map RNode.methods := by
  obtain ⟨n, n', hf, hfn, hf'⟩ := modifyAt_ok_elim _ p t t' h
  obtain ⟨hget, hn'⟩ := addResource_ok_elim n n' seg hfn
  constructor
  · rw [follow_append, hf']
    have hgc : n'.getChild seg = some emptyNode := by
      rw [hn']
      show assocGet (n.children ++ [(seg, emptyNode)]) seg = some emptyNode
      rw [assocGet_append_of_none _ _ hget]
      simp [assocGet]
    show follow n' [seg] = some emptyNode
    simp [follow, hgc]
  · rw [hf', hf]
    have : n'.methods = n.methods := by rw [hn']; rfl
    simp [this]

theorem resolveSegsE_ok (segs : List String) :
    ∀ t t1 : RNode, resolveSegsE t segs = (t1, none) → t1 = resolveSegs t segs := by
  induction segs with
  | nil =>
    intro t t1 h
    simp only [resolveSegsE, Prod.mk.injEq] at h
    exact h.1.symm
  | cons s rest ih =>
    intro t t1 h
    cases hg : t.getChild s with
    | some c =>
      cases hr : resolveSegsE c rest with
      | mk c2 oe =>
        simp only [resolveSegsE, hg, hr, Prod.mk.injEq] at h
        obtain ⟨h1, h2⟩ := h
        subst h2
        simp only [resolveSegs, hg]
        rw [← ih c c2 hr, h1]
    | none =>
      by_cases hs : s = ""
      · subst hs
        simp only [resolveSegsE, hg] at h
        simp at h
      · cases hr : resolveSegsE emptyNode rest with
        | mk c2 oe =>
          simp only [resolveSegsE, hg, if_neg hs, hr, Prod.mk.injEq] at h
          obtain ⟨h1, h2⟩ := h
          subst h2
          simp only [resolveSegs, hg]
          rw [← ih emptyNode c2 hr, h1]

theorem create_api_resource_ok_elim {t t' : RNode} {name m it : String}
    {iv : Option String} {b : Bool}
    (h : create_api_resource t name m it iv b = (t', none)) :
    resolveSegsE t (pySplit name '/') = (resolveSegs t (pySplit name '/'), none) ∧
      add_methods (resolveSegs t (pySplit name '/')) (pySplit name '/')
        (lambdaStackId name) m it iv b = (t', none) := by
  unfold create_api_resource at h
  cases hr : resolveSegsE t (pySplit name '/') with
  | mk t1 oe =>
    rw [hr] at h
    cases oe with
    | some e => dsimp only at h; simp at h
    | none =>
      dsimp only at h
      have heq := resolveSegsE_ok (pySplit name '/') t t1 hr
      subst heq
      exact ⟨rfl, h⟩

theorem create_proxy_api_resource_ok_elim {t t' : RNode} {name m url : String} {b : Bool}
    (h : create_proxy_api_resource t name m url b = (t', none)) :
    resolveSegsE t (pySplit name '/') = (resolveSegs t (pySplit name '/'), none) ∧
      ((pySplit name '/').getLast? = some "{proxy+}" →
        add_methods (resolveSegs t (pySplit name '/')) (pySplit name '/')
          (httpProxyStackId name) m "http_proxy" (some url) b = (t', none)) ∧
      (¬ (pySplit name '/').getLast? = some "{proxy+}" →
        ∃ t2, addResourceAt (resolveSegs t (pySplit name '/')) (pySplit name '/')
            "{proxy+}" = .ok t2 ∧
          add_methods t2 (pySplit name '/' ++ ["{proxy+}"])
            (httpProxyStackId name ++ "_CHILD") m "http_proxy" (some url) b =
            (t', none)) := by
  unfold create_proxy_api_resource at h
  cases hr : resolveSegsE t (pySplit name '/') with
  | mk t1 oe =>
    rw [hr] at h
    cases oe with
    | some e => dsimp only at h; simp at h
    | none =>
      dsimp only at h
      have heq := resolveSegsE_ok (pySplit name '/') t t1 hr
      subst heq
      refine ⟨rfl, ?_, ?_⟩
      · intro hc
        rw [if_pos hc] at h
        exact h
      · intro hc
        rw [if_neg hc] at h
        cases har : addResourceAt (resolveSegs t (pySplit name '/'))
            (pySplit name '/') "{proxy+}" with
        | error e => rw [har] at h; dsimp only at h; simp at h
        | ok t2 =>
          rw [har] at h
          dsimp only at h
          exact ⟨t2, rfl, h⟩

/-- C1: resolving two paths that share a non-empty segment prefix reuses one
node chain for the shared prefix — after resolving `q ++ r1` the whole
prefix `q` exists, and resolving `q ++ r2` afterwards adds only the nodes
missing strictly below `q` (none along `q` itself); resolving the same path
twice leaves the tree unchanged, hence returns the same node. -/
theorem path_resolution_shared_chain_idem (t : RNode) (q r1 r2 : List String)
    (hq : q ≠ []) :
    (∃ n, follow (resolveSegs t (q ++ r1)) q = some n ∧
       RNode.count (resolveSegs (resolveSegs t (q ++ r1)) (q ++ r2)) =
         RNode.count (resolveSegs t (q ++ r1)) + missingCount n r2) ∧
    resolveSegs (resolveSegs t (q ++ r1)) (q ++ r1) = resolveSegs t (q ++ r1) := by
  obtain ⟨n, hn⟩ := follow_resolveSegs_front q r1 t
  refine ⟨⟨n, hn, ?_⟩, resolveSegs_idem _ _⟩
  rw [count_resolveSegs, missingCount_follow_append q r2 _ n hn]

/-- Witness for C1 at the concrete paths `a/b` and `a/c` over the empty
root. -/
theorem path_resolution_shared_chain_idem_witness :
    (∃ n, follow (resolveSegs emptyNode (["a"] ++ ["b"])) ["a"] = some n ∧
       RNode.count (resolveSegs (resolveSegs emptyNode (["a"] ++ ["b"])) (["a"] ++ ["c"])) =
         RNode.count (resolveSegs emptyNode (["a"] ++ ["b"])) + missingCount n ["c"]) ∧
    resolveSegs (resolveSegs emptyNode (["a"] ++ ["b"])) (["a"] ++ ["b"]) =
      resolveSegs emptyNode (["a"] ++ ["b"]) :=
  path_resolution_shared_chain_idem emptyNode ["a"] ["b"] ["c"] (by decide)

/-- C4: binding a verb already bound on the node raises the collision error
and returns the tree exactly as it was (in particular the node's bound
methods are unchanged). -/
theorem duplicate_verb_bind_fails_unchanged (t : RNode) (p : List String) (n : RNode)
    (d : MethodDef) (stackId m it : String) (iv : Option String) (b : Bool)
    (hf : follow t p = some n) (hm : assocGet n.methods m = some d) :
    add_methods t p stackId m it iv b = (t, some (Err.collision m)) := by
  have he : RNode.addMethod n m (primaryDef b (selectIntegration stackId it iv m)) =
      .error (.collision m) := by
    cases n with
    | node cs ms =>
      simp only [RNode.methods] at hm
      simp [RNode.addMethod, RNode.methods, hm]
  have h2 := modifyAt_error_intro
    (fun x => x.addMethod m (primaryDef b (selectIntegration stackId it iv m)))
    p t n (.collision m) hf he
  unfold add_methods
  rw [show addMethodAt t p m (primaryDef b (selectIntegration stackId it iv m)) =
    .error (.collision m) from h2]

/-- Witness for C4: rebinding GET on a node that already has GET. -/
theorem duplicate_verb_bind_fails_unchanged_witness :
    add_methods (create_api_resource emptyNode "a" "GET" "lambda" (some "f") false).1
        ["a"] "X" "GET" "lambda" (some "f") false =
      ((create_api_resource emptyNode "a" "GET" "lambda" (some "f") false).1,
       some (Err.collision "GET")) :=
  duplicate_verb_bind_fails_unchanged
    (create_api_resource emptyNode "a" "GET" "lambda" (some "f") false).1 ["a"]
    (RNode.node []
      [("GET", primaryDef false (Integration.lambdaFn "LAMBDA_A" (some "f"))),
       ("OPTIONS", preflightDef)])
    (primaryDef false (Integration.lambdaFn "LAMBDA_A" (some "f")))
    "X" "GET" "lambda" (some "f") false rfl rfl

/-- C5: an `http_proxy` entry with no `http_proxy_url` key fails with the
KeyError raised on the dictionary access, before any tree call — the tree
is returned exactly unchanged. -/
theorem proxy_entry_missing_url_fails_unchanged (t : RNode) (projectArn : Option String)
    (b : Bool) (path m : String) (arn : Option String) :
    processEntry projectArn b t (.dictForm path m (some "http_proxy") none arn) =
      (t, some (Err.keyErr "http_proxy_url")) := by
  simp [processEntry]

/-- C8 counterexample: the empty path does not split into zero segments —
Python yields the single empty-string segment, and the resolution loop then
raises inside `add_resource("")` instead of returning the root. -/
theorem empty_path_counterexample :
    pySplit "" '/' = [""] ∧
    (resolveSegsE emptyNode (pySplit "" '/')).2 =
      some (Err.valueErr "Only root constructs may have an empty name") := ⟨rfl, rfl⟩

/-- C8 amended: the empty path splits into the single segment `""`, not
zero segments; on a root with no empty-named child the loop's
`add_resource("")` raises (the empty string is not a legal construct id),
so resolution fails with the tree unchanged — it neither returns the root
nor creates any child. -/
theorem empty_path_resolution_raises (t : RNode) (h : t.getChild "" = none) :
    pySplit "" '/' = [""] ∧
    resolveSegsE t (pySplit "" '/') =
      (t, some (Err.valueErr "Only root constructs may have an empty name")) := by
  refine ⟨rfl, ?_⟩
  show resolveSegsE t [""] = _
  simp [resolveSegsE, h]

/-- Witness for the amended C8 statement at the empty root. -/
theorem empty_path_resolution_raises_witness :
    pySplit "" '/' = [""] ∧
    resolveSegsE emptyNode (pySplit "" '/') =
      (emptyNode, some (Err.valueErr "Only root constructs may have an empty name")) :=
  empty_path_resolution_raises emptyNode rfl

/-- C9: every successful primary bind, for any integration type and any
target node, declares `method.request.path.proxy` as a required request
parameter of the bound method. -/
theorem primary_bind_declares_proxy_path_param (t t' : RNode) (p : List String)
    (stackId m it : String) (iv : Option String) (b : Bool)
    (h : add_methods t p stackId m it iv b = (t', none)) :
    ∃ d, getMethod t' p m = some d ∧
      d.requestParameters = [("method.request.path.proxy", true)] :=
  ⟨primaryDef b (selectIntegration stackId it iv m), add_methods_ok_getMethod h, rfl⟩

/-- Witness for C9 at a concrete lambda bind on the root node. -/
theorem primary_bind_declares_proxy_path_param_witness :
    ∃ d, getMethod (add_methods emptyNode [] "X" "GET" "lambda" none false).1 [] "GET" =
        some d ∧
      d.requestParameters = [("method.request.path.proxy", true)] :=
  primary_bind_declares_proxy_path_param emptyNode
    (add_methods emptyNode [] "X" "GET" "lambda" none false).1 [] "X" "GET" "lambda"
    none false rfl

/-- C10: the construct id of a direct-invoke bind is a pure function of the
entry's path — `"LAMBDA_"` followed by the uppercased path with `/` turned
into `_` — so two direct entries with the same path and different methods
or handlers carry the same (colliding) id. -/
theorem lambda_deploy_id_depends_only_on_path (t s t1 s1 : RNode) (name m1 m2 : String)
    (a1 a2 : Option String) (b1 b2 : Bool)
    (h1 : create_api_resource t name m1 "lambda" a1 b1 = (t1, none))
    (h2 : create_api_resource s name m2 "lambda" a2 b2 = (s1, none)) :
    getMethod t1 (pySplit name '/') m1 =
      some (primaryDef b1 (Integration.lambdaFn (lambdaStackId name) a1)) ∧
    getMethod s1 (pySplit name '/') m2 =
      some (primaryDef b2 (Integration.lambdaFn (lambdaStackId name) a2)) ∧
    lambdaStackId name = "LAMBDA_" ++ pyReplaceChar (pyUpper name) '/' '_' := by
  obtain ⟨hr1, g1⟩ := create_api_resource_ok_elim h1
  obtain ⟨hr2, g2⟩ := create_api_resource_ok_elim h2
  exact ⟨add_methods_ok_getMethod g1, add_methods_ok_getMethod g2, rfl⟩

/-- Witness for C10: two direct entries on path `v1/items` with different
methods and handlers both carry the id `LAMBDA_V1_ITEMS`. -/
theorem lambda_deploy_id_depends_only_on_path_witness :
    getMethod (create_api_resource emptyNode "v1/items" "GET" "lambda" (some "f1") false).1
        (pySplit "v1/items" '/') "GET" =
      some (primaryDef false (Integration.lambdaFn (lambdaStackId "v1/items") (some "f1"))) ∧
    getMethod (create_api_resource emptyNode "v1/items" "POST" "lambda" (some "f2") false).1
        (pySplit "v1/items" '/') "POST" =
      some (primaryDef false (Integration.lambdaFn (lambdaStackId "v1/items") (some "f2"))) ∧
    lambdaStackId "v1/items" = "LAMBDA_" ++ pyReplaceChar (pyUpper "v1/items") '/' '_' :=
  lambda_deploy_id_depends_only_on_path emptyNode emptyNode
    (create_api_resource emptyNode "v1/items" "GET" "lambda" (some "f1") false).1
    (create_api_resource emptyNode "v1/items" "POST" "lambda" (some "f2") false).1
    "v1/items" "GET" "POST" (some "f1") (some "f2") false false rfl rfl

/-- C3 counterexample: two proxy-forward entries on the same wildcard path
with different methods (GET then POST) — the second bind's unconditional
OPTIONS preflight add raises a construct-id collision; it is an error, not
a no-op.  (On this route the integration is a plain `HttpIntegration`, not
a construct, so nothing else can raise first.) -/
theorem preflight_not_idempotent_counterexample :
    (create_proxy_api_resource
        (create_proxy_api_resource emptyNode "a/{proxy+}" "GET" "http://x" false).1
        "a/{proxy+}" "POST" "http://x" false).2 = some (Err.collision "OPTIONS") := rfl

/-- C3 amended: on the proxy-forward route, binding a further primary
method to a node that already carries the preflight handler adds that
method and then raises a collision on the duplicate OPTIONS add (not a
no-op); the node keeps exactly as many preflight bindings as before (one
stays one). -/
theorem preflight_rebind_raises (t : RNode) (p : List String) (cs : List (String × RNode))
    (ms : List (String × MethodDef)) (stackId m url : String) (b : Bool)
    (hf : follow t p = some (RNode.node cs ms)) (hm : assocGet ms m = none)
    (hmo : m ≠ "OPTIONS") (ho : (assocGet ms "OPTIONS").isSome) :
    ∃ t1, add_methods t p stackId m "http_proxy" (some url) b =
        (t1, some (Err.collision "OPTIONS")) ∧
      getMethod t1 p m = some (primaryDef b (Integration.httpProxy (some url) m)) ∧
      countKey (methodsAt t1 p) "OPTIONS" = countKey ms "OPTIONS" := by
  have hok : RNode.addMethod (RNode.node cs ms) m
      (primaryDef b (selectIntegration stackId "http_proxy" (some url) m)) =
      .ok (RNode.node cs
        (ms ++ [(m, primaryDef b (selectIntegration stackId "http_proxy" (some url) m))])) := by
    simp [RNode.addMethod, RNode.methods, RNode.children, hm]
  obtain ⟨t1, ht1, hft1⟩ := modifyAt_ok_intro
    (fun x => x.addMethod m (primaryDef b (selectIntegration stackId "http_proxy" (some url) m)))
    p t (RNode.node cs ms)
    (RNode.node cs
      (ms ++ [(m, primaryDef b (selectIntegration stackId "http_proxy" (some url) m))])) hf hok
  obtain ⟨v, hv⟩ := Option.isSome_iff_exists.mp ho
  have herr : RNode.addMethod
      (RNode.node cs
        (ms ++ [(m, primaryDef b (selectIntegration stackId "http_proxy" (some url) m))]))
      "OPTIONS" preflightDef = .error (.collision "OPTIONS") := by
    have : assocGet
        (ms ++ [(m, primaryDef b (selectIntegration stackId "http_proxy" (some url) m))])
        "OPTIONS" = some v := assocGet_append_of_some _ hv
    simp [RNode.addMethod, RNode.methods, this]
  have herr2 := modifyAt_error_intro (fun x => x.addMethod "OPTIONS" preflightDef) p t1
    (RNode.node cs
      (ms ++ [(m, primaryDef b (selectIntegration stackId "http_proxy" (some url) m))]))
    (.collision "OPTIONS") hft1 herr
  refine ⟨t1, ?_, ?_, ?_⟩
  · unfold add_methods
    rw [show addMethodAt t p m
      (primaryDef b (selectIntegration stackId "http_proxy" (some url) m)) =
      .ok t1 from ht1]
    show (match addMethodAt t1 p "OPTIONS" preflightDef with
      | .error e => (t1, some e)
      | .ok t2 => (t2, none)) = (t1, some (Err.collision "OPTIONS"))
    rw [show addMethodAt t1 p "OPTIONS" preflightDef =
      .error (.collision "OPTIONS") from herr2]
  · unfold getMethod
    rw [hft1]
    dsimp only
    simp only [RNode.methods]
    rw [assocGet_append_of_none _ _ hm]
    simp [assocGet, selectIntegration]
  · unfold methodsAt
    rw [hft1]
    dsimp only
    simp only [RNode.methods]
    rw [countKey_append]
    have : countKey
        [(m, primaryDef b (selectIntegration stackId "http_proxy" (some url) m))]
        "OPTIONS" = 0 := by
      simp [countKey, hmo]
    omega

/-- Witness for C3's amended statement: rebinding POST on the wildcard node
of `a/{proxy+}` that already carries GET forwarding and its preflight. -/
theorem preflight_rebind_raises_witness :
    ∃ t1, add_methods
        (create_proxy_api_resource emptyNode "a/{proxy+}" "GET" "http://x" false).1
        ["a", "{proxy+}"] "HP" "POST" "http_proxy" (some "http://x") false =
        (t1, some (Err.collision "OPTIONS")) ∧
      getMethod t1 ["a", "{proxy+}"] "POST" =
        some (primaryDef false (Integration.httpProxy (some "http://x") "POST")) ∧
      countKey (methodsAt t1 ["a", "{proxy+}"]) "OPTIONS" =
        countKey
          [("GET", primaryDef false (Integration.httpProxy (some "http://x") "GET")),
           ("OPTIONS", preflightDef)] "OPTIONS" :=
  preflight_rebind_raises
    (create_proxy_api_resource emptyNode "a/{proxy+}" "GET" "http://x" false).1
    ["a", "{proxy+}"] []
    [("GET", primaryDef false (Integration.httpProxy (some "http://x") "GET")),
     ("OPTIONS", preflightDef)]
    "HP" "POST" "http://x" false rfl rfl (by decide) rfl

/-- C2: for a proxy-forward entry, when the configured path already ends in
the wildcard marker, forwarding is bound at the resolved node and no node is
created beyond the resolution itself; otherwise exactly one extra wildcard
child is created, the forwarding handler lands on that child, and the
resolved intermediate node's bound methods are untouched by the binding
step. -/
theorem proxy_entry_wildcard_dichotomy (t : RNode) (name m url : String) (b : Bool) :
    ((pySplit name '/').getLast? = some "{proxy+}" →
      ∀ t', create_proxy_api_resource t name m url b = (t', none) →
        RNode.count t' = RNode.count (resolveSegs t (pySplit name '/')) ∧
        getMethod t' (pySplit name '/') m =
          some (primaryDef b (Integration.httpProxy (some url) m))) ∧
    (¬ (pySplit name '/').getLast? = some "{proxy+}" →
      ∀ t', create_proxy_api_resource t name m url b = (t', none) →
        RNode.count t' = RNode.count (resolveSegs t (pySplit name '/')) + 1 ∧
        getMethod t' (pySplit name '/' ++ ["{proxy+}"]) m =
          some (primaryDef b (Integration.httpProxy (some url) m)) ∧
        (follow t' (pySplit name '/')).map RNode.methods =
          (follow (resolveSegs t (pySplit name '/')) (pySplit name '/')).map RNode.methods) := by
  constructor
  · intro hc t' h
    have h' := (create_proxy_api_resource_ok_elim h).2.1 hc
    constructor
    · obtain ⟨n, h1, h2, h3, h4, h5, hcnt⟩ := add_methods_ok_elim h'
      exact hcnt
    · exact add_methods_ok_getMethod h'
  · intro hc t' h
    obtain ⟨t2, har, h'⟩ := (create_proxy_api_resource_ok_elim h).2.2 hc
    have hcnt2 := addResourceAt_ok_count har
    obtain ⟨hfw, hframe2⟩ := addResourceAt_ok_follow har
    refine ⟨?_, ?_, ?_⟩
    · obtain ⟨n, h1, h2, h3, h4, h5, hcnt3⟩ := add_methods_ok_elim h'
      omega
    · exact add_methods_ok_getMethod h'
    · have hframe3 := add_methods_ok_methods_frame
        (pySplit name '/') "{proxy+}" [] h'
      rw [hframe3, hframe2]

/-- Witness for C2, both branches: `v1/items` (no wildcard: one extra child
created, `items` keeps no methods) and `v1/{proxy+}` (wildcard already
present: nothing beyond resolution). -/
theorem proxy_entry_wildcard_dichotomy_witness :
    (RNode.count (create_proxy_api_resource emptyNode "v1/items" "GET" "http://x/items" false).1 =
       RNode.count (resolveSegs emptyNode (pySplit "v1/items" '/')) + 1 ∧
     getMethod (create_proxy_api_resource emptyNode "v1/items" "GET" "http://x/items" false).1
         (pySplit "v1/items" '/' ++ ["{proxy+}"]) "GET" =
       some (primaryDef false (Integration.httpProxy (some "http://x/items") "GET")) ∧
     (follow (create_proxy_api_resource emptyNode "v1/items" "GET" "http://x/items" false).1
         (pySplit "v1/items" '/')).map RNode.methods =
       (follow (resolveSegs emptyNode (pySplit "v1/items" '/'))
         (pySplit "v1/items" '/')).map RNode.methods) ∧
    (RNode.count (create_proxy_api_resource emptyNode "v1/{proxy+}" "GET" "http://x/items" false).1 =
       RNode.count (resolveSegs emptyNode (pySplit "v1/{proxy+}" '/')) ∧
     getMethod (create_proxy_api_resource emptyNode "v1/{proxy+}" "GET" "http://x/items" false).1
         (pySplit "v1/{proxy+}" '/') "GET" =
       some (primaryDef false (Integration.httpProxy (some "http://x/items") "GET"))) := by
  constructor
  · exact (proxy_entry_wildcard_dichotomy emptyNode "v1/items" "GET" "http://x/items" false).2
      (by decide)
      (create_proxy_api_resource emptyNode "v1/items" "GET" "http://x/items" false).1 rfl
  · exact (proxy_entry_wildcard_dichotomy emptyNode "v1/{proxy+}" "GET" "http://x/items" false).1
      (by decide)
      (create_proxy_api_resource emptyNode "v1/{proxy+}" "GET" "http://x/items" false).1 rfl

theorem flagsOk_emptyNode (b : Bool) : RNode.flagsOk b emptyNode = true := rfl

theorem childrenFlagsOk_get {b : Bool} {cs : List (String × RNode)} {s : String} {c : RNode} :
    childrenFlagsOk b cs = true → assocGet cs s = some c → RNode.flagsOk b c = true := by
  induction cs with
  | nil => intro h1 h2; simp [assocGet] at h2
  | cons kv rest ih =>
    obtain ⟨k, v⟩ := kv
    intro h1 h2
    simp only [childrenFlagsOk, Bool.and_eq_true] at h1
    by_cases hk : k = s
    · simp only [assocGet, hk, if_pos] at h2
      cases h2
      exact h1.1
    · simp only [assocGet, hk, if_neg, ite_false] at h2
      exact ih h1.2 h2

theorem flagsOk_getChild {b : Bool} {n c : RNode} {s : String}
    (hn : RNode.flagsOk b n = true) (hc : n.getChild s = some c) :
    RNode.flagsOk b c = true := by
  cases n with
  | node cs ms =>
    simp only [RNode.flagsOk, Bool.and_eq_true] at hn
    exact childrenFlagsOk_get hn.2 hc

theorem childrenFlagsOk_assocSet {b : Bool} {cs : List (String × RNode)} {s : String}
    {c : RNode} (h : childrenFlagsOk b cs = true) (hc : RNode.flagsOk b c = true) :
    childrenFlagsOk b (assocSet cs s c) = true := by
  induction cs with
  | nil => simp [assocSet, childrenFlagsOk, hc]
  | cons kv rest ih =>
    obtain ⟨k, v⟩ := kv
    simp only [childrenFlagsOk, Bool.and_eq_true] at h
    by_cases hk : k = s
    · simp [assocSet, hk, childrenFlagsOk, hc, h.2]
    · simp [assocSet, hk, childrenFlagsOk, h.1, ih h.2]

theorem flagsOk_setChild {b : Bool} {n c : RNode} {s : String}
    (hn : RNode.flagsOk b n = true) (hc : RNode.flagsOk b c = true) :
    RNode.flagsOk b (n.setChild s c) = true := by
  cases n with
  | node cs ms =>
    simp only [RNode.flagsOk, Bool.and_eq_true] at hn
    simp only [RNode.setChild, RNode.children, RNode.methods, RNode.flagsOk,
      Bool.and_eq_true]
    exact ⟨hn.1, childrenFlagsOk_assocSet hn.2 hc⟩

theorem flagsOk_resolveSegs (b : Bool) (segs : List String) :
    ∀ t : RNode, RNode.flagsOk b t = true →
    RNode.flagsOk b (resolveSegs t segs) = true := by
  induction segs with
  | nil => intro t ht; exact ht
  | cons s rest ih =>
    intro t ht
    cases hg : t.getChild s with
    | some c =>
      simp only [resolveSegs, hg]
      exact flagsOk_setChild ht (ih c (flagsOk_getChild ht hg))
    | none =>
      simp only [resolveSegs, hg]
      exact flagsOk_setChild ht (ih emptyNode (flagsOk_emptyNode b))

theorem flagsOk_modifyAt (b : Bool) (f : RNode → Except Err RNode)
    (hf : ∀ n n', RNode.flagsOk b n = true → f n = .ok n' → RNode.flagsOk b n' = true)
    (p : List String) : ∀ t t', modifyAt f t p = .ok t' →
    RNode.flagsOk b t = true → RNode.flagsOk b t' = true := by
  induction p with
  | nil => intro t t' h ht; exact hf t t' ht h
  | cons s rest ih =>
    intro t t' h ht
    cases hg : t.getChild s with
    | none => simp [modifyAt, hg] at h
    | some c =>
      cases hm : modifyAt f c rest with
      | error e => simp [modifyAt, hg, hm] at h
      | ok c2 =>
        simp only [modifyAt, hg, hm] at h
        cases h
        exact flagsOk_setChild ht (ih c c2 hm (flagsOk_getChild ht hg))

theorem flagsOk_addMethod {b : Bool} {n n' : RNode} {v : String} {d : MethodDef}
    (hd : (d.apiKeyRequired == (if v = "OPTIONS" then false else b)) = true)
    (hn : RNode.flagsOk b n = true) (h : n.addMethod v d = .ok n') :
    RNode.flagsOk b n' = true := by
  obtain ⟨hget, hn'⟩ := addMethod_ok_elim n n' v d h
  cases n with
  | node cs ms =>
    simp only [RNode.children, RNode.methods] at hn'
    subst hn'
    simp only [RNode.flagsOk, Bool.and_eq_true] at hn ⊢
    refine ⟨?_, hn.2⟩
    rw [List.all_append]
    simp only [Bool.and_eq_true]
    exact ⟨hn.1, by simpa using hd⟩

theorem childrenFlagsOk_append_single {b : Bool} {cs : List (String × RNode)}
    {seg : String} {c : RNode} (h : childrenFlagsOk b cs = true)
    (hc : RNode.flagsOk b c = true) :
    childrenFlagsOk b (cs ++ [(seg, c)]) = true := by
  induction cs with
  | nil => simp [childrenFlagsOk, hc]
  | cons kv rest ih =>
    obtain ⟨k, v⟩ := kv
    simp only [childrenFlagsOk, Bool.and_eq_true, List.cons_append] at h ⊢
    exact ⟨h.1, ih h.2⟩

theorem flagsOk_addResource {b : Bool} {n n' : RNode} {seg : String}
    (hn : RNode.flagsOk b n = true) (h : n.addResource seg = .ok n') :
    RNode.flagsOk b n' = true := by
  obtain ⟨hget, hn'⟩ := addResource_ok_elim n n' seg h
  cases n with
  | node cs ms =>
    simp only [RNode.children, RNode.methods] at hn'
    subst hn'
    simp only [RNode.flagsOk, Bool.and_eq_true] at hn ⊢
    exact ⟨hn.1, childrenFlagsOk_append_single hn.2 (flagsOk_emptyNode b)⟩

theorem flagsOk_add_methods {b : Bool} {t t' : RNode} {p : List String}
    {stackId m it : String} {iv : Option String}
    (h : add_methods t p stackId m it iv b = (t', none))
    (ht : RNode.flagsOk b t = true) : RNode.flagsOk b t' = true := by
  obtain ⟨n, hf, hget, hmo, ho, hf', hc⟩ := add_methods_ok_elim h
  obtain ⟨t1, h1, h2⟩ := add_methods_ok_split h
  have hd1 : ((primaryDef b (selectIntegration stackId it iv m)).apiKeyRequired ==
      (if m = "OPTIONS" then false else b)) = true := by
    simp [primaryDef, hmo]
  have hd2 : (preflightDef.apiKeyRequired ==
      (if "OPTIONS" = "OPTIONS" then false else b)) = true := by
    simp [preflightDef]
  have s1 := flagsOk_modifyAt b _
    (fun a a' ha hok => flagsOk_addMethod hd1 ha hok) p t t1 h1 ht
  exact flagsOk_modifyAt b _
    (fun a a' ha hok => flagsOk_addMethod hd2 ha hok) p t1 t' h2 s1

theorem flagsOk_create_api_resource {b : Bool} {t t' : RNode}
    {name m it : String} {iv : Option String}
    (h : create_api_resource t name m it iv b = (t', none))
    (ht : RNode.flagsOk b t = true) : RNode.flagsOk b t' = true :=
  flagsOk_add_methods (create_api_resource_ok_elim h).2
    (flagsOk_resolveSegs b (pySplit name '/') t ht)

theorem flagsOk_create_proxy_api_resource {b : Bool} {t t' : RNode}
    {name m url : String}
    (h : create_proxy_api_resource t name m url b = (t', none))
    (ht : RNode.flagsOk b t = true) : RNode.flagsOk b t' = true := by
  have ht1 : RNode.flagsOk b (resolveSegs t (pySplit name '/')) = true :=
    flagsOk_resolveSegs b (pySplit name '/') t ht
  obtain ⟨hres, hthen, helse⟩ := create_proxy_api_resource_ok_elim h
  by_cases hc : (pySplit name '/').getLast? = some "{proxy+}"
  · exact flagsOk_add_methods (hthen hc) ht1
  · obtain ⟨t2, har, h'⟩ := helse hc
    have ht2 : RNode.flagsOk b t2 = true :=
      flagsOk_modifyAt b _ (fun a a' ha hok => flagsOk_addResource ha hok)
        (pySplit name '/') (resolveSegs t (pySplit name '/')) t2 har ht1
    exact flagsOk_add_methods h' ht2

theorem flagsOk_processEntry {b : Bool} {projectArn : Option String} {t t' : RNode}
    {e : ResourceMethod} (h : processEntry projectArn b t e = (t', none))
    (ht : RNode.flagsOk b t = true) : RNode.flagsOk b t' = true := by
  cases e with
  | listForm path m => exact flagsOk_create_api_resource h ht
  | dictForm path m itype url arn =>
    unfold processEntry at h
    dsimp only at h
    by_cases hit : itype.getD "lambda" = "http_proxy"
    · rw [if_pos hit] at h
      cases url with
      | none => dsimp only at h; simp at h
      | some u =>
        dsimp only at h
        exact flagsOk_create_proxy_api_resource h ht
    · rw [if_neg hit] at h
      exact flagsOk_create_api_resource h ht

theorem flagsOk_processEntries (b : Bool) (projectArn : Option String)
    (entries : List ResourceMethod) :
    ∀ t t' : RNode, processEntries projectArn b t entries = (t', none) →
    RNode.flagsOk b t = true → RNode.flagsOk b t' = true := by
  induction entries with
  | nil =>
    intro t t' h ht
    unfold processEntries at h
    simp only [Prod.mk.injEq] at h
    rw [← h.1]
    exact ht
  | cons e rest ih =>
    intro t t' h ht
    unfold processEntries at h
    cases hpe : processEntry projectArn b t e with
    | mk t1 oe =>
      rw [hpe] at h
      cases oe with
      | some err => dsimp only at h; simp at h
      | none =>
        dsimp only at h
        exact ih t1 t' h (flagsOk_processEntry hpe ht)

/-- C6 counterexample: with the access key enabled, the CORS preflight
(OPTIONS) method bound on node `a` does not carry the access-key
requirement flag — the OPTIONS `add_method` call never passes
`api_key_required`, so it defaults to false. -/
theorem access_key_preflight_counterexample :
    apiKeyPhase demoCfg = .ok true ∧
    (assemble demoCfg).2 = none ∧
    getMethod (assemble demoCfg).1 ["a"] "OPTIONS" = some preflightDef ∧
    preflightDef.apiKeyRequired = false := ⟨rfl, rfl, rfl, rfl⟩

/-- C6 amended: when the access-key policy is built (the key phase yields
the flag true), every successful assembly produces a tree in which every
primary bound method carries the requirement flag true, while every
preflight (OPTIONS) method carries it false. -/
theorem access_key_flag_invariant (cfg : ApiGwConfig) (t : RNode)
    (hb : apiKeyPhase cfg = .ok true) (ht : assemble cfg = (t, none)) :
    RNode.flagsOk true t = true := by
  unfold assemble at ht
  rw [hb] at ht
  dsimp only at ht
  exact flagsOk_processEntries true cfg.lambda_function_arn cfg.resources_methods
    emptyNode t ht rfl

/-- Witness for the amended C6 statement on the concrete enabled
configuration. -/
theorem access_key_flag_invariant_witness :
    RNode.flagsOk true (assemble demoCfg).1 = true :=
  access_key_flag_invariant demoCfg (assemble demoCfg).1 rfl rfl

/-- C7: enabling the access key with neither an existing key id nor a key
name makes assembly fail during the key phase — before any entry is
processed, so the returned tree is the bare root with nothing created or
bound. -/
theorem api_key_enabled_without_id_or_name_fails (cfg : ApiGwConfig) (k : ApiKeyConfig)
    (hk : cfg.api_key_config = some k) (he : k.enable_api_key = true)
    (hid : truthy k.api_key_id = false) (hname : truthy k.api_key_name = false) :
    ∃ e, assemble cfg = (emptyNode, some e) := by
  have hphase : ∃ e, apiKeyPhase cfg = .error e := by
    unfold apiKeyPhase
    rw [hk]
    dsimp only
    cases hu : k.usage_plan with
    | none => exact ⟨.keyErr "usage_plan_name", by simp [he, hu]⟩
    | some up =>
      refine ⟨.valueErr
        "api_key_name must be provided if enable_api_key is True and no api_key_id is provided", ?_⟩
      simp [he, hu, hid, hname]
  obtain ⟨e, hpe⟩ := hphase
  refine ⟨e, ?_⟩
  unfold assemble
  rw [hpe]

/-- Witness for C7 on the concrete bad configuration. -/
theorem api_key_enabled_without_id_or_name_fails_witness :
    ∃ e, assemble demoBadCfg = (emptyNode, some e) :=
  api_key_enabled_without_id_or_name_fails demoBadCfg demoBadKeyCfg rfl rfl rfl rfl
